import Mathlib

/-!
Shallow embedding of the incremental cache-reconciliation engine of
`today.py` (repository `andreamoleri/andreamoleri`), together with proofs
about the claims of its specification.

The embedding models:
- the Python string primitives the engine relies on (`str.split()`,
  `int(...)`, `str.isdigit()`, decimal rendering of integers);
- `recursive_loc` (the per-repository commit-history aggregator with its
  retry/classification loop and its partial-save behaviour via
  `force_close_file`);
- `_request_with_retries` (the retry/backoff helper used by every
  listing-style query);
- `cache_builder` / `flush_cache` (the cache reconciliation pass);
- `add_archive` and the archive-merge step of `__main__`.

External effects are made explicit: the file system is an
`Option (List String)` (list of lines, `none` = absent file), and each
network interaction is driven by a scripted list of classified responses.
An uncaught Python exception that is *not* preceded by a partial save is
modelled as the `crash` outcome; a raise preceded by `force_close_file`
is the `fatal` outcome carrying the lines written by the partial save.
-/

namespace Today

/-! ### Python string primitives -/

/-- The decimal digit character for `n % 10`-style values (0..9). -/
def digitChar (n : Nat) : Char :=
  if n = 0 then '0' else if n = 1 then '1' else if n = 2 then '2'
  else if n = 3 then '3' else if n = 4 then '4' else if n = 5 then '5'
  else if n = 6 then '6' else if n = 7 then '7' else if n = 8 then '8'
  else '9'

/-- Fuel-driven accumulator for the decimal digits of a natural number
(most significant first).  Fuel `n + 1` is always sufficient for `n`. -/
def natDigitsAux : Nat → Nat → List Char → List Char
  | 0, _, acc => acc
  | _ + 1, 0, acc => acc
  | fuel + 1, n + 1, acc =>
      natDigitsAux fuel ((n + 1) / 10) (digitChar ((n + 1) % 10) :: acc)

/-- The decimal digits of a positive natural number, most significant
first (empty for zero). -/
def natDigitsCore (n : Nat) : List Char :=
  natDigitsAux (n + 1) n []

/-- The decimal digits of `n`, most significant first (`[0]` for zero). -/
def natDigits (n : Nat) : List Char :=
  if n = 0 then ['0'] else natDigitsCore n

/-- Python `str(n)` for a natural number. -/
def natRepr (n : Nat) : String :=
  String.mk (natDigits n)

/-- Parse a nonempty all-digit character list as a natural number
(mirrors Python `int` on such tokens). -/
def parseDigits? (cs : List Char) : Option Nat :=
  if cs.isEmpty then none
  else if cs.all (fun c => c.isDigit) then
    some (cs.foldl (fun a c => 10 * a + (c.toNat - 48)) 0)
  else none

/-- Python `int(s)` on the tokens this engine produces and consumes:
an optional leading minus sign followed by decimal digits; `none` models
the `ValueError` raised on anything else. -/
def pyInt? (s : String) : Option Int :=
  match s.data with
  | [] => none
  | c :: cs =>
    if c = '-' then (parseDigits? cs).map (fun n => -(n : Int))
    else (parseDigits? (c :: cs)).map (fun n => (n : Int))

/-- Python `s.isdigit()` (restricted to the ASCII digits the engine emits). -/
def pyIsDigit (s : String) : Bool :=
  !s.data.isEmpty && s.data.all (fun c => c.isDigit)

/-- Worker for `pySplit`: scans the character list, accumulating the current
word in reverse. -/
def pyWordsAux : List Char → List Char → List (List Char)
  | [], cur => if cur.isEmpty then [] else [cur.reverse]
  | c :: cs, cur =>
    if c.isWhitespace then
      if cur.isEmpty then pyWordsAux cs [] else cur.reverse :: pyWordsAux cs []
    else pyWordsAux cs (c :: cur)

/-- Python `s.split()`: split on runs of whitespace, discarding empty
tokens. -/
def pySplit (s : String) : List String :=
  (pyWordsAux s.data []).map (fun w => String.mk w)

/-- Worker for `splitSlash?`: split a character list at every separator,
keeping empty parts (Python `str.split(sep)` semantics). -/
def splitOnCharAux (sep : Char) : List Char → List Char → List (List Char)
  | [], cur => [cur.reverse]
  | c :: cs, cur =>
    if c = sep then cur.reverse :: splitOnCharAux sep cs []
    else splitOnCharAux sep cs (c :: cur)

/-- Python `name_with_owner.split('/')` followed by unpacking into two
names; `none` models the `ValueError` of a mismatched tuple unpacking. -/
def splitSlash? (s : String) : Option (String × String) :=
  match (splitOnCharAux '/' s.data []).map (fun w => String.mk w) with
  | [a, b] => some (a, b)
  | _ => none

/-! ### Data model: live listing and commit pages -/

/-- One repository of the live listing (`loc_query` edge): its
`nameWithOwner` and the total commit count of its default branch
(`none` when `defaultBranchRef` is null or the nested fields are
missing, i.e. the `TypeError`/`KeyError` branch of `cache_builder`). -/
structure RepoEdge where
  nameWithOwner : String
  defaultBranchTotal : Option Nat

/-- One commit of a history page: the author's opaque user id (`none`
when `author.user` is null) and the additions/deletions of the commit. -/
structure CommitEdge where
  authorId : Option String
  additions : Nat
  deletions : Nat

/-- One page of a repository's commit history. -/
structure Page where
  edges : List CommitEdge
  hasNextPage : Bool

/-- A classified response to one POST of `recursive_loc`:
network exception, 200 with the (possibly null) `defaultBranchRef`
payload, a retryable 502/503/504, a 403, or any other status code. -/
inductive RLResp
  | netExc
  | http200 (dbr : Option Page)
  | http5xx
  | http403
  | httpOther (code : Nat)

/-- Outcome of `recursive_loc`: success with accumulated totals and the
unconsumed responses; a fatal raise carrying the file content written by
`force_close_file` just before raising; or exhaustion of the scripted
response list (a model artifact, never reached with enough responses). -/
inductive RLOutcome
  | success (addT delT myC : Nat) (rest : List RLResp)
  | fatal (saved : List String)
  | starved

/-- The per-page accumulation of `loc_counter_one_repo`: for every commit
whose author user id equals the tracked `OWNER_ID`, add one commit and the
commit's additions and deletions. -/
def loc_counter_fold (ownerId : String) : List CommitEdge → Nat → Nat → Nat → Nat × Nat × Nat
  | [], addT, delT, myC => (addT, delT, myC)
  | e :: es, addT, delT, myC =>
    if e.authorId = some ownerId then
      loc_counter_fold ownerId es (addT + e.additions) (delT + e.deletions) (myC + 1)
    else
      loc_counter_fold ownerId es addT delT myC

/-- `force_close_file(data, cache_comment)`: the lines written to the cache
artifact by the partial save (comment lines followed by the data rows). -/
def force_close_file (data cache_comment : List String) : List String :=
  cache_comment ++ data

/-- `recursive_loc`: paginate one repository's default-branch commit
history, retrying network errors and 502/503/504 with a bounded attempt
budget, treating 403 and any other non-200 status as immediately fatal.
Every fatal path first performs the partial save of `force_close_file`
on the current `dataLines`/`cacheComment`.  The scripted responses are
consumed one per POST; `attempt` is the retry counter of the current
call (reset to 0 by the recursive call that follows a full page). -/
def recursive_loc (ownerId : String) (dataLines cacheComment : List String)
    (retries : Nat) : List RLResp → Nat → Nat → Nat → Nat → RLOutcome
  | [], _, _, _, _ => .starved
  | resp :: rest, addT, delT, myC, attempt =>
    match resp with
    | .netExc =>
      if retries ≤ attempt + 1 then .fatal (force_close_file dataLines cacheComment)
      else recursive_loc ownerId dataLines cacheComment retries rest addT delT myC (attempt + 1)
    | .http200 dbr =>
      match dbr with
      | none => .success 0 0 0 rest
      | some page =>
        let r := loc_counter_fold ownerId page.edges addT delT myC
        if page.edges.isEmpty || !page.hasNextPage then .success r.1 r.2.1 r.2.2 rest
        else recursive_loc ownerId dataLines cacheComment retries rest r.1 r.2.1 r.2.2 0
    | .http5xx =>
      if retries ≤ attempt + 1 then .fatal (force_close_file dataLines cacheComment)
      else recursive_loc ownerId dataLines cacheComment retries rest addT delT myC (attempt + 1)
    | .http403 => .fatal (force_close_file dataLines cacheComment)
    | .httpOther _ => .fatal (force_close_file dataLines cacheComment)

/-! ### `_request_with_retries` -/

/-- A classified response to one POST of `_request_with_retries`: a network
exception, or a status code together with the optional `Retry-After`
header value. -/
inductive HResp
  | netExc
  | status (code : Nat) (retryAfter : Option String)
deriving DecidableEq

/-- Outcome of `_request_with_retries`: success with the unconsumed
responses and the sequence of sleep delays performed, or one of the fatal
raises, or exhaustion of the scripted responses. -/
inductive HOutcome
  | success (rest : List HResp) (delays : List ℚ)
  | fatalNet
  | fatalAuth
  | fatalRateLimited
  | fatal5xx
  | fatalOther (code : Nat)
  | starved
deriving DecidableEq

/-- The delay chosen for a 403 retry: the `Retry-After` header value when
present and all digits, otherwise `base_delay * attempt`. -/
def retryAfterDelay (retryAfter : Option String) (base_delay : ℚ) (attempt : Nat) : ℚ :=
  match retryAfter with
  | some ra => if pyIsDigit ra then ((ra.data.foldl (fun a c => 10 * a + (c.toNat - 48)) 0 : Nat) : ℚ)
               else base_delay * attempt
  | none => base_delay * attempt

/-- `_request_with_retries`: retry network exceptions, 403 (using the
`Retry-After` hint when it is a digit string) and 5xx with bounded attempts
and growing delay; 401 and any other status are immediately fatal.
`delays` records every sleep performed, in order. -/
def request_with_retries (max_retries : Nat) (base_delay : ℚ) :
    List HResp → Nat → List ℚ → HOutcome
  | [], _, _ => .starved
  | resp :: rest, attempt, delays =>
    match resp with
    | .netExc =>
      if max_retries ≤ attempt + 1 then .fatalNet
      else request_with_retries max_retries base_delay rest (attempt + 1)
        (delays ++ [base_delay * (attempt + 1)])
    | .status code retryAfter =>
      if code = 200 then .success rest delays
      else if code = 401 then .fatalAuth
      else if code = 403 then
        if max_retries ≤ attempt + 1 then .fatalRateLimited
        else request_with_retries max_retries base_delay rest (attempt + 1)
          (delays ++ [retryAfterDelay retryAfter base_delay (attempt + 1)])
      else if 500 ≤ code ∧ code < 600 then
        if max_retries ≤ attempt + 1 then .fatal5xx
        else request_with_retries max_retries base_delay rest (attempt + 1)
          (delays ++ [base_delay * (attempt + 1)])
      else .fatalOther code

/-! ### Cache rows and `flush_cache` -/

/-- The row written for a reconciled repository:
`<fingerprint> <observedCommitCount> <myCommitCount> <linesAdded> <linesDeleted>`. -/
def mkRow (fp : String) (total myC addT delT : Nat) : String :=
  fp ++ " " ++ natRepr total ++ " " ++ natRepr myC ++ " " ++ natRepr addT ++ " " ++ natRepr delT

/-- The zero baseline row `<fingerprint> 0 0 0 0`. -/
def zeroRow (fp : String) : String :=
  mkRow fp 0 0 0 0

/-- The placeholder comment line written when the cache file is created. -/
def placeholderLine : String :=
  "This line is a comment block. Write whatever you want here."

/-- `flush_cache(edges, filename, comment_size)`: rewrite the artifact as
the first `comment_size` lines of the existing file (when it exists and
`comment_size > 0`) followed by one zero row per listed repository.
The fingerprint function is the engine's hash of the canonical
`owner/name` key, passed explicitly. -/
def flush_cache (hash : String → String) (edges : List RepoEdge)
    (file : Option (List String)) (comment_size : Nat) : List String :=
  (match file with
   | some lines => if 0 < comment_size then lines.take comment_size else []
   | none => []) ++ edges.map (fun e => zeroRow (hash e.nameWithOwner))

/-! ### The reconciliation loop of `cache_builder` -/

/-- Outcome of the per-repository loop of `cache_builder`: success with the
final body rows, the number of `recursive_loc` invocations and the list of
row indices at which it was invoked; a fatal raise propagated from
`recursive_loc` (carrying the partial save); exhaustion of a response
script; or an uncaught exception without partial save (`IndexError` on a
short body, `ValueError` from `int(...)` or from unpacking). -/
inductive LoopOutcome
  | ok (body : List String) (calls : Nat) (invoked : List Nat)
  | fatal (saved : List String)
  | starved
  | crash

/-- The decision taken by one iteration of the `cache_builder` loop for
one row, in source order: split the row (fewer than two fields is an
uncaught `ValueError`, `crash`); on a fingerprint mismatch leave the row
untouched (`keep`); on a match, an unavailable default branch resets the
row to zero (`zero`); otherwise parse the stored count (`crash` on a
non-numeric field), keep a row whose stored count equals the live total,
and re-aggregate a stale row (`stale`) after the owner/name unpacking
(whose failure is again an uncaught `ValueError`). -/
inductive RowAction
  | crash
  | keep
  | zero
  | stale (current_total : Nat)

/-- Classify one row of the cache body against its live listing entry
(the branch structure of `cache_builder`'s loop body). -/
def row_action (hash : String → String) (e : RepoEdge) (line : String) : RowAction :=
  match pySplit line with
  | repo_hash :: commit_count :: _ =>
    if repo_hash = hash e.nameWithOwner then
      match e.defaultBranchTotal with
      | none => .zero
      | some current_total =>
        match pyInt? commit_count with
        | none => .crash
        | some stored =>
          if stored = (current_total : Int) then .keep
          else
            match splitSlash? e.nameWithOwner with
            | none => .crash
            | some _ => .stale current_total
    else .keep
  | _ => .crash

/-- The `for index in range(len(edges))` loop of `cache_builder`.
At each index the row is classified by `row_action`; a stale row invokes
`recursive_loc` (scripted by `oracle`, indexed by the invocation counter)
and is replaced with the aggregation result.  The current `body` is what
`recursive_loc` receives as its partial-save data. -/
def build_loop (hash : String → String) (ownerId : String) (oracle : Nat → List RLResp)
    (retries : Nat) (cacheComment : List String) :
    List RepoEdge → Nat → List String → Nat → List Nat → LoopOutcome
  | [], _, body, calls, invoked => .ok body calls invoked
  | e :: es, index, body, calls, invoked =>
    match body.get? index with
    | none => .crash
    | some line =>
      match row_action hash e line with
      | .crash => .crash
      | .keep =>
        build_loop hash ownerId oracle retries cacheComment es (index + 1) body calls invoked
      | .zero =>
        build_loop hash ownerId oracle retries cacheComment es (index + 1)
          (body.set index (zeroRow (hash e.nameWithOwner))) calls invoked
      | .stale current_total =>
        match recursive_loc ownerId body cacheComment retries (oracle calls) 0 0 0 0 with
        | .success addT delT myC _ =>
          build_loop hash ownerId oracle retries cacheComment es (index + 1)
            (body.set index (mkRow (hash e.nameWithOwner) current_total myC addT delT))
            (calls + 1) (invoked ++ [index])
        | .fatal saved => .fatal saved
        | .starved => .starved

/-- The totals pass after the loop: for every body line with at least five
whitespace-separated fields, add fields 3 and 4 to the running
added/deleted sums; rows with fewer fields are skipped; a non-numeric
field crashes (`ValueError`). -/
def sum_totals : List String → Int → Int → Option (Int × Int)
  | [], addT, delT => some (addT, delT)
  | line :: rest, addT, delT =>
    match pySplit line with
    | _ :: _ :: _ :: p3 :: p4 :: _ =>
      match pyInt? p3, pyInt? p4 with
      | some x, some y => sum_totals rest (addT + x) (delT + y)
      | _, _ => none
    | _ => sum_totals rest addT delT

/-! ### `cache_builder` -/

/-- The artifact content after the existence check: the existing lines, or
(when absent) the freshly created comment block flushed with zero rows. -/
def cb_file1 (hash : String → String) (edges : List RepoEdge) (comment_size : Nat)
    (file : Option (List String)) : List String :=
  match file with
  | some lines => lines
  | none =>
    flush_cache hash edges (some (List.replicate comment_size placeholderLine)) comment_size

/-- The rebuild trigger of `cache_builder`:
`len(data) - comment_size != len(edges) or force_cache`. -/
def cb_rebuild (edges : List RepoEdge) (comment_size : Nat) (force_cache : Bool)
    (file1 : List String) : Bool :=
  decide ((file1.length : Int) - (comment_size : Int) ≠ (edges.length : Int)) || force_cache

/-- The artifact content after the (possible) rebuild flush. -/
def cb_data (hash : String → String) (edges : List RepoEdge) (comment_size : Nat)
    (force_cache : Bool) (file1 : List String) : List String :=
  if cb_rebuild edges comment_size force_cache file1 then
    flush_cache hash edges (some file1) comment_size
  else file1

/-- The preamble handed to the reconciliation loop (`data[:comment_size]`). -/
def cb_comment (hash : String → String) (edges : List RepoEdge) (comment_size : Nat)
    (force_cache : Bool) (file : Option (List String)) : List String :=
  (cb_data hash edges comment_size force_cache (cb_file1 hash edges comment_size file)).take
    comment_size

/-- The body handed to the reconciliation loop (`data[comment_size:]`). -/
def cb_body0 (hash : String → String) (edges : List RepoEdge) (comment_size : Nat)
    (force_cache : Bool) (file : Option (List String)) : List String :=
  (cb_data hash edges comment_size force_cache (cb_file1 hash edges comment_size file)).drop
    comment_size

/-- A successful `cache_builder` run: the persisted artifact, the four
components of the returned list `[loc_add, loc_del, loc_add - loc_del,
cached]`, and the instrumented `recursive_loc` invocation data. -/
structure CBSuccess where
  file : List String
  locAdd : Int
  locDel : Int
  net : Int
  cached : Bool
  aggCalls : Nat
  invoked : List Nat
deriving DecidableEq

/-- Outcome of a `cache_builder` run. -/
inductive CBResult
  | ok (r : CBSuccess)
  | fatal (saved : List String)
  | starved
  | crash
deriving DecidableEq

/-- `cache_builder`: create the artifact when absent, rebuild it to the
zero baseline when the row count mismatches the listing (or when forced),
run the reconciliation loop, persist preamble plus body, and sum the
added/deleted columns of all well-formed rows.  `cached` is true iff no
rebuild was triggered. -/
def cache_builder (hash : String → String) (ownerId : String) (oracle : Nat → List RLResp)
    (retries : Nat) (edges : List RepoEdge) (comment_size : Nat) (force_cache : Bool)
    (file : Option (List String)) : CBResult :=
  let file1 := cb_file1 hash edges comment_size file
  let cacheComment := cb_comment hash edges comment_size force_cache file
  let body := cb_body0 hash edges comment_size force_cache file
  match build_loop hash ownerId oracle retries cacheComment edges 0 body 0 [] with
  | .ok body1 calls invoked =>
    match sum_totals body1 0 0 with
    | some (a, d) =>
      .ok ⟨cacheComment ++ body1, a, d, a - d,
           !cb_rebuild edges comment_size force_cache file1, calls, invoked⟩
    | none => .crash
  | .fatal saved => .fatal saved
  | .starved => .starved
  | .crash => .crash

/-! ### `add_archive` and the archive-merge step of `__main__` -/

/-- `add_archive()`: when the archive file is absent return all zeros;
otherwise sum columns 3 and 4 of the rows between the 7 header lines and
the 3 footer lines, count a commit column when it is all digits, count the
data rows, and finally add the (trailing-character-stripped) fifth token
of the very last line when that parses, swallowing any failure.  `none`
models an uncaught `ValueError`/`IndexError` while processing a data row. -/
def add_archive (file : Option (List String)) : Option (Int × Int × Int × Int × Nat) :=
  match file with
  | none => some (0, 0, 0, 0, 0)
  | some lines =>
    let data := (lines.drop 7).take (lines.length - 3 - 7)
    let step := fun (acc : Option (Int × Int × Int)) (line : String) =>
      match acc with
      | none => none
      | some (addL, delL, addC) =>
        match pySplit line with
        | _ :: _ :: my_commits :: l0 :: l1 :: _ =>
          match pyInt? l0, pyInt? l1 with
          | some x, some y =>
            some (addL + x, delL + y,
                  if pyIsDigit my_commits then addC + ((pyInt? my_commits).getD 0) else addC)
          | _, _ => none
        | _ => none
    match data.foldl step (some (0, 0, 0)) with
    | none => none
    | some (addL, delL, addC) =>
      let extra : Int :=
        match lines.getLast? with
        | none => 0
        | some last =>
          match (pySplit last).get? 4 with
          | none => 0
          | some tok =>
            match pyInt? (tok.dropRight 1) with
            | none => 0
            | some v => v
      some (addL, delL, addL - delL, addC + extra, data.length)

/-- The hard-coded account identifier guarding the archive merge in
`__main__`. -/
def archiveOwnerId : String := "MDQ6VXNlcjU3MzMxMTM0"

/-- The merged terminal totals of `__main__` after the archive step. -/
structure MergedTotals where
  locAdd : Int
  locDel : Int
  net : Int
  commits : Int
  contribs : Int
deriving DecidableEq

/-- The archive-merge step of `__main__`: only when `OWNER_ID` equals the
hard-coded constant, add the first three archive components to the LOC
totals, the repository count to the contribution count and the commit
component to the commit count; otherwise leave every total unchanged.
`none` models `add_archive` crashing. -/
def archive_merge (owner_id : String) (locAdd locDel net commits contribs : Int)
    (archive : Option (List String)) : Option MergedTotals :=
  if owner_id = archiveOwnerId then
    match add_archive archive with
    | none => none
    | some (a, d, n, c, r) =>
      some ⟨locAdd + a, locDel + d, net + n, commits + c, contribs + (r : Int)⟩
  else
    some ⟨locAdd, locDel, net, commits, contribs⟩

/-! ### Specification-side predicates (from the spec's words)

These express, independently of the loop's control flow, which rows the
spec calls *stale* (stored commit count differs from the live total, among
rows with a matching fingerprint and an existing default branch) and
*fresh* (stored count equals the live total). -/

/-- The spec's staleness condition for one position: the row exists, its
fingerprint matches the repository's, the repository has a default branch,
and the stored commit count parses but differs from the live total. -/
def staleAt (hash : String → String) (e : RepoEdge) (line? : Option String) : Bool :=
  match line?, e.defaultBranchTotal with
  | some line, some liveTotal =>
    match pySplit line with
    | fp :: stored :: _ =>
      decide (fp = hash e.nameWithOwner) &&
        (match pyInt? stored with
         | some s => decide (s ≠ (liveTotal : Int))
         | none => false)
    | _ => false
  | _, _ => false

/-- The spec's freshness condition for one position: matching fingerprint,
existing default branch, and a stored commit count equal to the live
total. -/
def freshAt (hash : String → String) (e : RepoEdge) (line? : Option String) : Bool :=
  match line?, e.defaultBranchTotal with
  | some line, some liveTotal =>
    match pySplit line with
    | fp :: stored :: _ =>
      decide (fp = hash e.nameWithOwner) &&
        (match pyInt? stored with
         | some s => decide (s = (liveTotal : Int))
         | none => false)
    | _ => false
  | _, _ => false

/-- Modelled from the spec: the positions the staleness-detection property
requires the history aggregator to be invoked at, in listing order, for a
listing paired with the body rows at matching positions starting at a given
index. -/
def stale_spec (hash : String → String) (body : List String) :
    List RepoEdge → Nat → List Nat
  | [], _ => []
  | e :: es, i =>
    if staleAt hash e (body.get? i) then i :: stale_spec hash body es (i + 1)
    else stale_spec hash body es (i + 1)

/-- A string usable as a cache fingerprint: nonempty, no whitespace (true
of the hex digests the engine writes). -/
def strOk (s : String) : Prop :=
  s.data ≠ [] ∧ ∀ c ∈ s.data, c.isWhitespace = false

/-- The fingerprint hash always produces fingerprint-shaped strings. -/
def HashOk (hash : String → String) : Prop :=
  ∀ s, strOk (hash s)

/-! ### List helper lemmas -/

theorem lget_set_ne {α : Type} (l : List α) (i j : Nat) (a : α) (h : i ≠ j) :
    (l.set i a).get? j = l.get? j := by
  induction l generalizing i j with
  | nil => simp
  | cons x xs ih =>
    cases i with
    | zero =>
      cases j with
      | zero => exact absurd rfl h
      | succ j => simp
    | succ i =>
      cases j with
      | zero => simp
      | succ j => simpa using ih i j (by omega)

theorem lget_set_self {α : Type} (l : List α) (i : Nat) (a b : α)
    (h : l.get? i = some b) : (l.set i a).get? i = some a := by
  induction l generalizing i with
  | nil => simp at h
  | cons x xs ih =>
    cases i with
    | zero => simp
    | succ i => simpa using ih i (by simpa using h)

theorem lset_self {α : Type} (l : List α) (i : Nat) (a : α)
    (h : l.get? i = some a) : l.set i a = l := by
  induction l generalizing i with
  | nil => simp
  | cons x xs ih =>
    cases i with
    | zero => simp at h; simp [h]
    | succ i => simpa using ih i (by simpa using h)

/-! ### Digit and decimal-rendering lemmas -/

theorem digitChar_isDigit (m : Nat) : (digitChar m).isDigit = true := by
  unfold digitChar
  split_ifs <;> decide

theorem digitChar_val (m : Nat) (h : m < 10) : (digitChar m).toNat - 48 = m := by
  unfold digitChar
  split_ifs with h0 h1 h2 h3 h4 h5 h6 h7 h8
  · subst h0; decide
  · subst h1; decide
  · subst h2; decide
  · subst h3; decide
  · subst h4; decide
  · subst h5; decide
  · subst h6; decide
  · subst h7; decide
  · subst h8; decide
  · have h9 : m = 9 := by omega
    subst h9; decide

theorem isDigit_not_whitespace (c : Char) (h : c.isDigit = true) :
    c.isWhitespace = false := by
  cases hw : c.isWhitespace with
  | false => rfl
  | true =>
    exfalso
    have hc : ((c = ' ' ∨ c = '\t') ∨ c = '\r') ∨ c = '\n' := by
      simpa [Char.isWhitespace] using hw
    rcases hc with ((rfl | rfl) | rfl) | rfl <;> simp [Char.isDigit] at h

theorem natDigitsAux_fuel (f1 f2 n : Nat) (acc : List Char)
    (h1 : n < f1) (h2 : n < f2) :
    natDigitsAux f1 n acc = natDigitsAux f2 n acc := by
  induction f1 generalizing f2 n acc with
  | zero => omega
  | succ f1 ih =>
    cases f2 with
    | zero => omega
    | succ f2 =>
      cases n with
      | zero => simp [natDigitsAux]
      | succ n =>
        simp only [natDigitsAux]
        have hd : (n + 1) / 10 < n + 1 := Nat.div_lt_self (Nat.succ_pos n) (by norm_num)
        exact ih f2 ((n + 1) / 10) _ (by omega) (by omega)

theorem natDigitsAux_append (f n : Nat) (acc : List Char) (h : n < f) :
    natDigitsAux f n acc = natDigitsAux f n [] ++ acc := by
  induction f generalizing n acc with
  | zero => omega
  | succ f ih =>
    cases n with
    | zero => simp [natDigitsAux]
    | succ n =>
      have hd : (n + 1) / 10 < f := by
        have := Nat.div_lt_self (Nat.succ_pos n) (by norm_num : (1 : Nat) < 10)
        omega
      simp only [natDigitsAux]
      rw [ih ((n + 1) / 10) _ hd, ih ((n + 1) / 10) [digitChar ((n + 1) % 10)] hd]
      simp

theorem natDigitsCore_zero : natDigitsCore 0 = [] := rfl

theorem natDigitsCore_succ (n : Nat) (h : n ≠ 0) :
    natDigitsCore n = natDigitsCore (n / 10) ++ [digitChar (n % 10)] := by
  cases n with
  | zero => exact absurd rfl h
  | succ n =>
    show natDigitsAux (n + 2) (n + 1) [] = _
    have hd : (n + 1) / 10 < n + 1 := Nat.div_lt_self (Nat.succ_pos n) (by norm_num)
    simp only [natDigitsAux]
    rw [natDigitsAux_append (n + 1) ((n + 1) / 10) _ hd]
    unfold natDigitsCore
    rw [natDigitsAux_fuel (n + 1) ((n + 1) / 10 + 1) ((n + 1) / 10) [] hd (Nat.lt_succ_self _)]

theorem natDigitsCore_ne_nil (n : Nat) (h : n ≠ 0) : natDigitsCore n ≠ [] := by
  rw [natDigitsCore_succ n h]
  simp

theorem natDigitsCore_all_digit (n : Nat) :
    ∀ c ∈ natDigitsCore n, c.isDigit = true := by
  induction n using Nat.strong_induction_on with
  | _ n ih =>
    by_cases h : n = 0
    · subst h; intro c hc; simp [natDigitsCore_zero] at hc
    · rw [natDigitsCore_succ n h]
      intro c hc
      rcases List.mem_append.mp hc with hc | hc
      · exact ih (n / 10) (Nat.div_lt_self (Nat.pos_of_ne_zero h) (by norm_num)) c hc
      · simp at hc; subst hc; exact digitChar_isDigit _

theorem natDigitsCore_foldl (n : Nat) : ∀ a : Nat,
    (natDigitsCore n).foldl (fun x c => 10 * x + (c.toNat - 48)) a
      = a * 10 ^ (natDigitsCore n).length + n := by
  induction n using Nat.strong_induction_on with
  | _ n ih =>
    intro a
    by_cases h : n = 0
    · subst h; simp [natDigitsCore_zero]
    · rw [natDigitsCore_succ n h, List.foldl_append, List.length_append]
      rw [ih (n / 10) (Nat.div_lt_self (Nat.pos_of_ne_zero h) (by norm_num)) a]
      simp only [List.foldl_cons, List.foldl_nil, List.length_cons, List.length_nil]
      rw [digitChar_val (n % 10) (Nat.mod_lt n (by norm_num))]
      have hdm : 10 * (n / 10) + n % 10 = n := Nat.div_add_mod n 10
      calc 10 * (a * 10 ^ (natDigitsCore (n / 10)).length + n / 10) + n % 10
          = a * (10 ^ (natDigitsCore (n / 10)).length * 10)
              + (10 * (n / 10) + n % 10) := by ring
        _ = a * 10 ^ ((natDigitsCore (n / 10)).length + (0 + 1)) + n := by
              rw [hdm, pow_succ]

theorem natDigits_ne_nil (n : Nat) : natDigits n ≠ [] := by
  unfold natDigits
  split_ifs with h
  · simp
  · exact natDigitsCore_ne_nil n h

theorem natDigits_all_digit (n : Nat) : ∀ c ∈ natDigits n, c.isDigit = true := by
  unfold natDigits
  split_ifs with h
  · intro c hc; simp at hc; subst hc; decide
  · exact natDigitsCore_all_digit n

theorem parseDigits_natDigits (n : Nat) : parseDigits? (natDigits n) = some n := by
  by_cases h : n = 0
  · subst h; decide
  · unfold parseDigits?
    rw [if_neg, if_pos]
    · unfold natDigits
      rw [if_neg h, natDigitsCore_foldl n 0]
      simp
    · exact List.all_eq_true.mpr (natDigits_all_digit n)
    · simpa [List.isEmpty_iff] using natDigits_ne_nil n

theorem natRepr_data (n : Nat) : (natRepr n).data = natDigits n := rfl

theorem strOk_natRepr (n : Nat) : strOk (natRepr n) := by
  constructor
  · rw [natRepr_data]; exact natDigits_ne_nil n
  · intro c hc
    rw [natRepr_data] at hc
    exact isDigit_not_whitespace c (natDigits_all_digit n c hc)

theorem pyInt_natRepr (n : Nat) : pyInt? (natRepr n) = some (n : Int) := by
  obtain ⟨c, cs, hc⟩ := List.exists_cons_of_ne_nil (natDigits_ne_nil n)
  have hd : c.isDigit = true := natDigits_all_digit n c (by rw [hc]; simp)
  have hne : ¬(c = '-') := by
    intro h; subst h; simp [Char.isDigit] at hd
  unfold pyInt?
  rw [natRepr_data, hc]
  simp only [hne, if_false]
  rw [← hc, parseDigits_natDigits n]
  rfl

/-! ### Tokenisation lemmas for the rows the engine writes -/

theorem pyWordsAux_nonws (w : List Char) (rest cur : List Char)
    (hw : ∀ c ∈ w, c.isWhitespace = false) :
    pyWordsAux (w ++ rest) cur = pyWordsAux rest (w.reverse ++ cur) := by
  induction w generalizing cur with
  | nil => simp
  | cons c cs ih =>
    have hc : c.isWhitespace = false := hw c (by simp)
    have hcs : ∀ x ∈ cs, x.isWhitespace = false := fun x hx => hw x (by simp [hx])
    have step : pyWordsAux ((c :: cs) ++ rest) cur = pyWordsAux (cs ++ rest) (c :: cur) := by
      simp [pyWordsAux, hc]
    rw [step, ih (c :: cur) hcs]
    simp

theorem pyWordsAux_token (t : List Char) (rest : List Char)
    (h1 : t ≠ []) (h2 : ∀ c ∈ t, c.isWhitespace = false) :
    pyWordsAux (t ++ ' ' :: rest) [] = t :: pyWordsAux rest [] := by
  rw [pyWordsAux_nonws t (' ' :: rest) [] h2]
  have hsp : (' ' : Char).isWhitespace = true := by decide
  simp [pyWordsAux, hsp, h1]

theorem pyWordsAux_last (t : List Char)
    (h1 : t ≠ []) (h2 : ∀ c ∈ t, c.isWhitespace = false) :
    pyWordsAux t [] = [t] := by
  have h := pyWordsAux_nonws t [] [] h2
  rw [List.append_nil] at h
  rw [h]
  simp [pyWordsAux, h1]

theorem string_mk_data (s : String) : String.mk s.data = s := rfl

theorem pySplit_five (t0 t1 t2 t3 t4 : String)
    (h0 : strOk t0) (h1 : strOk t1) (h2 : strOk t2) (h3 : strOk t3) (h4 : strOk t4) :
    pySplit (t0 ++ " " ++ t1 ++ " " ++ t2 ++ " " ++ t3 ++ " " ++ t4)
      = [t0, t1, t2, t3, t4] := by
  unfold pySplit
  have hdata : (t0 ++ " " ++ t1 ++ " " ++ t2 ++ " " ++ t3 ++ " " ++ t4).data
      = t0.data ++ ' ' :: (t1.data ++ ' ' :: (t2.data ++ ' '
          :: (t3.data ++ ' ' :: t4.data))) := by
    simp [String.data_append]
  rw [hdata,
    pyWordsAux_token t0.data _ h0.1 h0.2,
    pyWordsAux_token t1.data _ h1.1 h1.2,
    pyWordsAux_token t2.data _ h2.1 h2.2,
    pyWordsAux_token t3.data _ h3.1 h3.2,
    pyWordsAux_last t4.data h4.1 h4.2]
  simp [string_mk_data]

theorem pySplit_mkRow (fp : String) (hfp : strOk fp) (t c a d : Nat) :
    pySplit (mkRow fp t c a d)
      = [fp, natRepr t, natRepr c, natRepr a, natRepr d] :=
  pySplit_five fp (natRepr t) (natRepr c) (natRepr a) (natRepr d)
    hfp (strOk_natRepr t) (strOk_natRepr c) (strOk_natRepr a) (strOk_natRepr d)

/-! ### Row-classification lemmas -/

theorem row_action_mkRow (hash : String → String) (e : RepoEdge) (t c a d : Nat)
    (hOk : strOk (hash e.nameWithOwner)) (he : e.defaultBranchTotal = some t) :
    row_action hash e (mkRow (hash e.nameWithOwner) t c a d) = RowAction.keep := by
  unfold row_action
  rw [pySplit_mkRow _ hOk]
  simp [he, pyInt_natRepr]

theorem row_action_zeroRow (hash : String → String) (e : RepoEdge)
    (hOk : strOk (hash e.nameWithOwner)) (he : e.defaultBranchTotal = none) :
    row_action hash e (zeroRow (hash e.nameWithOwner)) = RowAction.zero := by
  unfold row_action zeroRow
  rw [pySplit_mkRow _ hOk]
  simp [he]

/-! ### `recursive_loc` partial-save lemma -/

theorem recursive_loc_fatal (ownerId : String) (dl cc : List String) (retries : Nat) :
    ∀ (resp : List RLResp) (a d c att : Nat) (saved : List String),
      recursive_loc ownerId dl cc retries resp a d c att = .fatal saved →
      saved = cc ++ dl := by
  intro resp
  induction resp with
  | nil =>
    intro a d c att saved h
    simp only [recursive_loc] at h
    exact RLOutcome.noConfusion h
  | cons r rest ih =>
    intro a d c att saved h
    cases r with
    | netExc =>
      simp only [recursive_loc] at h
      by_cases hb : retries ≤ att + 1
      · rw [if_pos hb] at h
        cases h; rfl
      · rw [if_neg hb] at h
        exact ih a d c (att + 1) saved h
    | http200 dbr =>
      cases dbr with
      | none =>
        simp only [recursive_loc] at h
        exact RLOutcome.noConfusion h
      | some page =>
        simp only [recursive_loc] at h
        by_cases hb : (page.edges.isEmpty || !page.hasNextPage) = true
        · rw [if_pos hb] at h
          exact RLOutcome.noConfusion h
        · rw [if_neg hb] at h
          exact ih _ _ _ 0 saved h
    | http5xx =>
      simp only [recursive_loc] at h
      by_cases hb : retries ≤ att + 1
      · rw [if_pos hb] at h
        cases h; rfl
      · rw [if_neg hb] at h
        exact ih a d c (att + 1) saved h
    | http403 =>
      simp only [recursive_loc] at h
      cases h; rfl
    | httpOther code =>
      simp only [recursive_loc] at h
      cases h; rfl

/-! ### `build_loop` invariants -/

theorem build_loop_keeps_front (hash : String → String) (ownerId : String)
    (oracle : Nat → List RLResp) (retries : Nat) (cc : List String) :
    ∀ (es : List RepoEdge) (i : Nat) (b : List String) (calls : Nat) (inv : List Nat)
      (b1 : List String) (calls1 : Nat) (inv1 : List Nat),
      build_loop hash ownerId oracle retries cc es i b calls inv =
        LoopOutcome.ok b1 calls1 inv1 →
      ∀ j, j < i → b1.get? j = b.get? j := by
  intro es
  induction es with
  | nil =>
    intro i b calls inv b1 calls1 inv1 h j hj
    simp only [build_loop] at h
    cases h
    rfl
  | cons e es ih =>
    intro i b calls inv b1 calls1 inv1 h j hj
    simp only [build_loop] at h
    split at h
    · exact absurd h (by simp)
    · split at h
      · exact absurd h (by simp)
      · exact ih (i + 1) b calls inv b1 calls1 inv1 h j (by omega)
      · have := ih (i + 1) _ calls inv b1 calls1 inv1 h j (by omega)
        rw [this, lget_set_ne b i j _ (by omega)]
      · split at h
        · have := ih (i + 1) _ _ _ b1 calls1 inv1 h j (by omega)
          rw [this, lget_set_ne b i j _ (by omega)]
        · exact absurd h (by simp)
        · exact absurd h (by simp)

theorem build_loop_fatal_decomp (hash : String → String) (ownerId : String)
    (oracle : Nat → List RLResp) (retries : Nat) (cc : List String) :
    ∀ (es : List RepoEdge) (i : Nat) (b : List String) (calls : Nat) (inv : List Nat)
      (saved : List String),
      build_loop hash ownerId oracle retries cc es i b calls inv =
        LoopOutcome.fatal saved →
      ∃ k b1 calls1 inv1,
        build_loop hash ownerId oracle retries cc (es.take k) i b calls inv =
          LoopOutcome.ok b1 calls1 inv1 ∧ saved = cc ++ b1 := by
  intro es
  induction es with
  | nil =>
    intro i b calls inv saved h
    simp only [build_loop] at h
    exact LoopOutcome.noConfusion h
  | cons e es ih =>
    intro i b calls inv saved h
    cases hline : b.get? i with
    | none =>
      simp only [build_loop, hline] at h
      exact LoopOutcome.noConfusion h
    | some line =>
      cases hact : row_action hash e line with
      | crash =>
        simp only [build_loop, hline, hact] at h
        exact LoopOutcome.noConfusion h
      | keep =>
        simp only [build_loop, hline, hact] at h
        obtain ⟨k, b1, calls1, inv1, hk, hs⟩ := ih (i + 1) b calls inv saved h
        refine ⟨k + 1, b1, calls1, inv1, ?_, hs⟩
        simp only [List.take_succ_cons, build_loop, hline, hact]
        exact hk
      | zero =>
        simp only [build_loop, hline, hact] at h
        obtain ⟨k, b1, calls1, inv1, hk, hs⟩ := ih (i + 1) _ calls inv saved h
        refine ⟨k + 1, b1, calls1, inv1, ?_, hs⟩
        simp only [List.take_succ_cons, build_loop, hline, hact]
        exact hk
      | stale t =>
        cases hrl : recursive_loc ownerId b cc retries (oracle calls) 0 0 0 0 with
        | success a d c rest =>
          simp only [build_loop, hline, hact, hrl] at h
          obtain ⟨k, b1, calls1, inv1, hk, hs⟩ := ih (i + 1) _ _ _ saved h
          refine ⟨k + 1, b1, calls1, inv1, ?_, hs⟩
          simp only [List.take_succ_cons, build_loop, hline, hact, hrl]
          exact hk
        | fatal s =>
          simp only [build_loop, hline, hact, hrl] at h
          cases h
          refine ⟨0, b, calls, inv, ?_, ?_⟩
          · simp [build_loop]
          · exact recursive_loc_fatal ownerId b cc retries _ 0 0 0 0 saved hrl
        | starved =>
          simp only [build_loop, hline, hact, hrl] at h
          exact LoopOutcome.noConfusion h

/-! ### Relating the loop's row classification to the spec predicates -/

theorem staleAt_dbtNone (hash : String → String) (e : RepoEdge) (line : String)
    (hdb : e.defaultBranchTotal = none) : staleAt hash e (some line) = false := by
  simp only [staleAt, hdb]

theorem row_action_zero_inv (hash : String → String) (e : RepoEdge) (line : String)
    (h : row_action hash e line = RowAction.zero) : e.defaultBranchTotal = none := by
  unfold row_action at h
  rcases hps : pySplit line with _ | ⟨fp, _ | ⟨stored, rest⟩⟩ <;> simp only [hps] at h
  · exact RowAction.noConfusion h
  · exact RowAction.noConfusion h
  · cases hdb : e.defaultBranchTotal with
    | none => rfl
    | some t =>
      simp only [hdb] at h
      by_cases hfp : fp = hash e.nameWithOwner
      · rw [if_pos hfp] at h
        cases hpi : pyInt? stored with
        | none => simp only [hpi] at h; exact RowAction.noConfusion h
        | some s =>
          simp only [hpi] at h
          by_cases hst : s = (t : Int)
          · rw [if_pos hst] at h; exact RowAction.noConfusion h
          · rw [if_neg hst] at h
            cases hsl : splitSlash? e.nameWithOwner <;> simp only [hsl] at h <;>
              exact RowAction.noConfusion h
      · rw [if_neg hfp] at h; exact RowAction.noConfusion h

theorem row_action_keep_staleAt (hash : String → String) (e : RepoEdge) (line : String)
    (h : row_action hash e line = RowAction.keep) :
    staleAt hash e (some line) = false := by
  unfold row_action at h
  cases hdb : e.defaultBranchTotal with
  | none => exact staleAt_dbtNone hash e line hdb
  | some t =>
    simp only [hdb] at h
    rcases hps : pySplit line with _ | ⟨fp, _ | ⟨stored, rest⟩⟩ <;> simp only [hps] at h
    · exact RowAction.noConfusion h
    · exact RowAction.noConfusion h
    · simp only [staleAt, hdb, hps]
      by_cases hfp : fp = hash e.nameWithOwner
      · rw [if_pos hfp] at h
        cases hpi : pyInt? stored with
        | none => simp only [hpi] at h; exact RowAction.noConfusion h
        | some s =>
          simp only [hpi] at h
          by_cases hst : s = (t : Int)
          · simp [hpi, hst]
          · rw [if_neg hst] at h
            cases hsl : splitSlash? e.nameWithOwner <;> simp only [hsl] at h <;>
              exact RowAction.noConfusion h
      · simp [hfp]

theorem row_action_stale_inv (hash : String → String) (e : RepoEdge) (line : String)
    (t : Nat) (h : row_action hash e line = RowAction.stale t) :
    e.defaultBranchTotal = some t ∧ staleAt hash e (some line) = true := by
  unfold row_action at h
  cases hdb : e.defaultBranchTotal with
  | none =>
    simp only [hdb] at h
    rcases hps : pySplit line with _ | ⟨fp, _ | ⟨stored, rest⟩⟩ <;> simp only [hps] at h
    · exact RowAction.noConfusion h
    · exact RowAction.noConfusion h
    · by_cases hfp : fp = hash e.nameWithOwner
      · rw [if_pos hfp] at h; exact RowAction.noConfusion h
      · rw [if_neg hfp] at h; exact RowAction.noConfusion h
  | some t0 =>
    simp only [hdb] at h
    rcases hps : pySplit line with _ | ⟨fp, _ | ⟨stored, rest⟩⟩ <;> simp only [hps] at h
    · exact RowAction.noConfusion h
    · exact RowAction.noConfusion h
    · by_cases hfp : fp = hash e.nameWithOwner
      · rw [if_pos hfp] at h
        cases hpi : pyInt? stored with
        | none => simp only [hpi] at h; exact RowAction.noConfusion h
        | some s =>
          simp only [hpi] at h
          by_cases hst : s = (t0 : Int)
          · rw [if_pos hst] at h; exact RowAction.noConfusion h
          · rw [if_neg hst] at h
            cases hsl : splitSlash? e.nameWithOwner with
            | none => simp only [hsl] at h; exact RowAction.noConfusion h
            | some pq =>
              simp only [hsl] at h
              have ht : t0 = t := by cases h; rfl
              subst ht
              refine ⟨rfl, ?_⟩
              simp only [staleAt, hdb, hps]
              simp [hfp, hpi, hst]
      · rw [if_neg hfp] at h; exact RowAction.noConfusion h

theorem freshAt_action_keep (hash : String → String) (e : RepoEdge) (line : String)
    (h : freshAt hash e (some line) = true) :
    row_action hash e line = RowAction.keep := by
  cases hdb : e.defaultBranchTotal with
  | none =>
    simp only [freshAt, hdb] at h
    exact Bool.noConfusion h
  | some t =>
    simp only [freshAt, hdb] at h
    rcases hps : pySplit line with _ | ⟨fp, _ | ⟨stored, rest⟩⟩
    · simp only [hps] at h
      exact Bool.noConfusion h
    · simp only [hps] at h
      exact Bool.noConfusion h
    · simp only [hps] at h
      unfold row_action
      simp only [hps, hdb]
      cases hpi : pyInt? stored with
      | none => simp [hpi] at h
      | some s =>
        simp only [hpi] at h
        rw [Bool.and_eq_true] at h
        obtain ⟨hfp', hst'⟩ := h
        have hfp := of_decide_eq_true hfp'
        have hst := of_decide_eq_true hst'
        simp [hfp, hpi, hst]

/-! ### Staleness bookkeeping and idempotence of the loop -/

theorem stale_spec_set (hash : String → String) :
    ∀ (es : List RepoEdge) (j : Nat) (b : List String) (i : Nat) (v : String),
      i < j → stale_spec hash (b.set i v) es j = stale_spec hash b es j := by
  intro es
  induction es with
  | nil => intros; rfl
  | cons e es ih =>
    intro j b i v hij
    simp only [stale_spec, lget_set_ne b i j v (by omega), ih (j + 1) b i v (by omega)]

theorem build_loop_invoked (hash : String → String) (ownerId : String)
    (oracle : Nat → List RLResp) (retries : Nat) (cc : List String) :
    ∀ (es : List RepoEdge) (i : Nat) (b : List String) (calls : Nat) (inv : List Nat)
      (b1 : List String) (calls1 : Nat) (inv1 : List Nat),
      build_loop hash ownerId oracle retries cc es i b calls inv =
        LoopOutcome.ok b1 calls1 inv1 →
      inv1 = inv ++ stale_spec hash b es i := by
  intro es
  induction es with
  | nil =>
    intro i b calls inv b1 calls1 inv1 h
    simp only [build_loop] at h
    cases h
    simp [stale_spec]
  | cons e es ih =>
    intro i b calls inv b1 calls1 inv1 h
    cases hline : b.get? i with
    | none =>
      simp only [build_loop, hline] at h
      exact LoopOutcome.noConfusion h
    | some line =>
      cases hact : row_action hash e line with
      | crash =>
        simp only [build_loop, hline, hact] at h
        exact LoopOutcome.noConfusion h
      | keep =>
        simp only [build_loop, hline, hact] at h
        rw [ih (i + 1) b calls inv b1 calls1 inv1 h]
        simp only [stale_spec, hline, row_action_keep_staleAt hash e line hact]
        simp
      | zero =>
        simp only [build_loop, hline, hact] at h
        rw [ih (i + 1) _ calls inv b1 calls1 inv1 h]
        rw [stale_spec_set hash es (i + 1) b i _ (by omega)]
        have hdb := row_action_zero_inv hash e line hact
        simp only [stale_spec, hline, staleAt_dbtNone hash e line hdb]
        simp
      | stale t =>
        cases hrl : recursive_loc ownerId b cc retries (oracle calls) 0 0 0 0 with
        | success a d c rest =>
          simp only [build_loop, hline, hact, hrl] at h
          rw [ih (i + 1) _ _ _ b1 calls1 inv1 h]
          rw [stale_spec_set hash es (i + 1) b i _ (by omega)]
          obtain ⟨hdb, hstale⟩ := row_action_stale_inv hash e line t hact
          simp only [stale_spec, hline, hstale]
          simp
        | fatal s =>
          simp only [build_loop, hline, hact, hrl] at h
          exact LoopOutcome.noConfusion h
        | starved =>
          simp only [build_loop, hline, hact, hrl] at h
          exact LoopOutcome.noConfusion h

theorem build_loop_fresh (hash : String → String) (ownerId : String)
    (oracle : Nat → List RLResp) (retries : Nat) (cc : List String) :
    ∀ (es : List RepoEdge) (i : Nat) (b : List String) (calls : Nat) (inv : List Nat)
      (b1 : List String) (calls1 : Nat) (inv1 : List Nat),
      build_loop hash ownerId oracle retries cc es i b calls inv =
        LoopOutcome.ok b1 calls1 inv1 →
      ∀ k e0, es.get? k = some e0 → freshAt hash e0 (b.get? (i + k)) = true →
        b1.get? (i + k) = b.get? (i + k) := by
  intro es
  induction es with
  | nil =>
    intro i b calls inv b1 calls1 inv1 h k e0 hk hf
    simp at hk
  | cons e es ih =>
    intro i b calls inv b1 calls1 inv1 h k e0 hk hf
    cases hline : b.get? i with
    | none =>
      simp only [build_loop, hline] at h
      exact LoopOutcome.noConfusion h
    | some line =>
      cases k with
      | zero =>
        have he : e = e0 := by simpa using hk
        subst he
        rw [Nat.add_zero] at hf ⊢
        rw [hline] at hf
        have hact := freshAt_action_keep hash e line hf
        simp only [build_loop, hline, hact] at h
        exact build_loop_keeps_front hash ownerId oracle retries cc es (i + 1) b calls inv
          b1 calls1 inv1 h i (by omega)
      | succ k =>
        have hk' : es.get? k = some e0 := by simpa using hk
        have hik : i + (k + 1) = i + 1 + k := by omega
        rw [hik] at hf ⊢
        cases hact : row_action hash e line with
        | crash =>
          simp only [build_loop, hline, hact] at h
          exact LoopOutcome.noConfusion h
        | keep =>
          simp only [build_loop, hline, hact] at h
          exact ih (i + 1) b calls inv b1 calls1 inv1 h k e0 hk' hf
        | zero =>
          simp only [build_loop, hline, hact] at h
          have hset : (b.set i (zeroRow (hash e.nameWithOwner))).get? (i + 1 + k)
              = b.get? (i + 1 + k) := lget_set_ne b i (i + 1 + k) _ (by omega)
          have hres := ih (i + 1) _ calls inv b1 calls1 inv1 h k e0 hk'
            (by rw [hset]; exact hf)
          rw [hres, hset]
        | stale t =>
          cases hrl : recursive_loc ownerId b cc retries (oracle calls) 0 0 0 0 with
          | success a d c rest =>
            simp only [build_loop, hline, hact, hrl] at h
            have hset : (b.set i (mkRow (hash e.nameWithOwner) t c a d)).get? (i + 1 + k)
                = b.get? (i + 1 + k) := lget_set_ne b i (i + 1 + k) _ (by omega)
            have hres := ih (i + 1) _ _ _ b1 calls1 inv1 h k e0 hk'
              (by rw [hset]; exact hf)
            rw [hres, hset]
          | fatal s =>
            simp only [build_loop, hline, hact, hrl] at h
            exact LoopOutcome.noConfusion h
          | starved =>
            simp only [build_loop, hline, hact, hrl] at h
            exact LoopOutcome.noConfusion h

theorem build_loop_idem (hash : String → String) (hOk : HashOk hash)
    (ownerId ownerId2 : String) (oracle oracle2 : Nat → List RLResp)
    (retries retries2 : Nat) (cc cc2 : List String) :
    ∀ (es : List RepoEdge) (i : Nat) (b : List String) (calls : Nat) (inv : List Nat)
      (b1 : List String) (calls1 : Nat) (inv1 : List Nat),
      build_loop hash ownerId oracle retries cc es i b calls inv =
        LoopOutcome.ok b1 calls1 inv1 →
      build_loop hash ownerId2 oracle2 retries2 cc2 es i b1 0 [] =
        LoopOutcome.ok b1 0 [] := by
  intro es
  induction es with
  | nil =>
    intro i b calls inv b1 calls1 inv1 h
    simp only [build_loop]
  | cons e es ih =>
    intro i b calls inv b1 calls1 inv1 h
    cases hline : b.get? i with
    | none =>
      simp only [build_loop, hline] at h
      exact LoopOutcome.noConfusion h
    | some line =>
      cases hact : row_action hash e line with
      | crash =>
        simp only [build_loop, hline, hact] at h
        exact LoopOutcome.noConfusion h
      | keep =>
        simp only [build_loop, hline, hact] at h
        have hb1 : b1.get? i = some line :=
          (build_loop_keeps_front hash ownerId oracle retries cc es (i + 1) b calls inv
            b1 calls1 inv1 h i (by omega)).trans hline
        have IH := ih (i + 1) b calls inv b1 calls1 inv1 h
        simp only [build_loop, hb1, hact]
        exact IH
      | zero =>
        simp only [build_loop, hline, hact] at h
        have hdb := row_action_zero_inv hash e line hact
        have hset : (b.set i (zeroRow (hash e.nameWithOwner))).get? i
            = some (zeroRow (hash e.nameWithOwner)) := lget_set_self b i _ line hline
        have hb1 : b1.get? i = some (zeroRow (hash e.nameWithOwner)) :=
          (build_loop_keeps_front hash ownerId oracle retries cc es (i + 1) _ calls inv
            b1 calls1 inv1 h i (by omega)).trans hset
        have IH := ih (i + 1) _ calls inv b1 calls1 inv1 h
        have hact2 : row_action hash e (zeroRow (hash e.nameWithOwner)) = RowAction.zero :=
          row_action_zeroRow hash e (hOk e.nameWithOwner) hdb
        simp only [build_loop, hb1, hact2]
        rw [lset_self b1 i _ hb1]
        exact IH
      | stale t =>
        cases hrl : recursive_loc ownerId b cc retries (oracle calls) 0 0 0 0 with
        | success a d c rest =>
          simp only [build_loop, hline, hact, hrl] at h
          obtain ⟨hdb, _⟩ := row_action_stale_inv hash e line t hact
          have hset : (b.set i (mkRow (hash e.nameWithOwner) t c a d)).get? i
              = some (mkRow (hash e.nameWithOwner) t c a d) :=
            lget_set_self b i _ line hline
          have hb1 : b1.get? i = some (mkRow (hash e.nameWithOwner) t c a d) :=
            (build_loop_keeps_front hash ownerId oracle retries cc es (i + 1) _ _ _
              b1 calls1 inv1 h i (by omega)).trans hset
          have IH := ih (i + 1) _ _ _ b1 calls1 inv1 h
          have hact2 : row_action hash e (mkRow (hash e.nameWithOwner) t c a d)
              = RowAction.keep :=
            row_action_mkRow hash e t c a d (hOk e.nameWithOwner) hdb
          simp only [build_loop, hb1, hact2]
          exact IH
        | fatal s =>
          simp only [build_loop, hline, hact, hrl] at h
          exact LoopOutcome.noConfusion h
        | starved =>
          simp only [build_loop, hline, hact, hrl] at h
          exact LoopOutcome.noConfusion h

/-! ### Shape bookkeeping for `cache_builder` -/

theorem build_loop_length (hash : String → String) (ownerId : String)
    (oracle : Nat → List RLResp) (retries : Nat) (cc : List String) :
    ∀ (es : List RepoEdge) (i : Nat) (b : List String) (calls : Nat) (inv : List Nat)
      (b1 : List String) (calls1 : Nat) (inv1 : List Nat),
      build_loop hash ownerId oracle retries cc es i b calls inv =
        LoopOutcome.ok b1 calls1 inv1 →
      b1.length = b.length := by
  intro es
  induction es with
  | nil =>
    intro i b calls inv b1 calls1 inv1 h
    simp only [build_loop] at h
    cases h
    rfl
  | cons e es ih =>
    intro i b calls inv b1 calls1 inv1 h
    simp only [build_loop] at h
    split at h
    · exact absurd h (by simp)
    · split at h
      · exact absurd h (by simp)
      · exact ih (i + 1) b calls inv b1 calls1 inv1 h
      · have := ih (i + 1) _ calls inv b1 calls1 inv1 h
        simpa using this
      · split at h
        · have := ih (i + 1) _ _ _ b1 calls1 inv1 h
          simpa using this
        · exact absurd h (by simp)
        · exact absurd h (by simp)

theorem cb_file1_none_length (hash : String → String) (edges : List RepoEdge)
    (comment_size : Nat) :
    (cb_file1 hash edges comment_size none).length = comment_size + edges.length := by
  unfold cb_file1 flush_cache
  split_ifs with h
  · simp
  · simp
    omega

theorem cb_rebuild_none (hash : String → String) (edges : List RepoEdge)
    (comment_size : Nat) :
    cb_rebuild edges comment_size false (cb_file1 hash edges comment_size none) = false := by
  unfold cb_rebuild
  rw [cb_file1_none_length]
  simp


/-! ### Concrete instances used by witnesses and counterexamples -/

def hashSelf : String → String := fun s => s

def oracleA : Nat → List RLResp := fun _ =>
  [RLResp.http200 (some ⟨List.replicate 20 ⟨some "me", 5, 2⟩, false⟩)]

def edgesA : List RepoEdge := [⟨"u/a", some 50⟩, ⟨"u/b", none⟩]

def resA : CBSuccess :=
  ⟨List.replicate 7 placeholderLine ++ ["u/a 50 20 100 40", "u/b 0 0 0 0"],
    100, 40, 60, true, 1, [0]⟩

/-- Claim C1, counterexample.  The spec's scenario: cache file absent,
repository `u/a` with 50 commits (20 by the tracked user, additions 100, deletions 40) and
`u/b` with no default branch.  The claim requires `wasFullyCached = false`;
the code returns `cached = true` (the absent-file branch flushes the cache
before the row-count check, so the check passes) even though the history
aggregator was invoked once (`aggCalls = 1`). -/
theorem claim1_counterexample :
    cache_builder hashSelf "me" oracleA 5 edgesA 7 false none = CBResult.ok resA := rfl

/-- Claim C1, amended.  `wasFullyCached` reflects only the rebuild trigger
(row-count mismatch or `force_cache`), not whether any repository was
re-aggregated; in particular a run with the cache file absent (and
`force_cache` unset) reports `wasFullyCached = true`. -/
theorem claim1_amended (hash : String → String) (ownerId : String)
    (oracle : Nat → List RLResp) (retries : Nat) (edges : List RepoEdge)
    (comment_size : Nat) (force_cache : Bool) (file : Option (List String)) (r : CBSuccess)
    (h : cache_builder hash ownerId oracle retries edges comment_size force_cache file =
      CBResult.ok r) :
    r.cached = !cb_rebuild edges comment_size force_cache
        (cb_file1 hash edges comment_size file) ∧
      (file = none → force_cache = false → r.cached = true) := by
  have hc : r.cached = !cb_rebuild edges comment_size force_cache
      (cb_file1 hash edges comment_size file) := by
    simp only [cache_builder] at h
    cases hbl : build_loop hash ownerId oracle retries
        (cb_comment hash edges comment_size force_cache file) edges 0
        (cb_body0 hash edges comment_size force_cache file) 0 [] with
    | ok b1 c1 i1 =>
      cases hst : sum_totals b1 0 0 with
      | none =>
        simp only [hbl, hst] at h
        exact CBResult.noConfusion h
      | some p =>
        obtain ⟨a, d⟩ := p
        simp only [hbl, hst] at h
        cases h
        rfl
    | fatal s =>
      simp only [hbl] at h
      exact CBResult.noConfusion h
    | starved =>
      simp only [hbl] at h
      exact CBResult.noConfusion h
    | crash =>
      simp only [hbl] at h
      exact CBResult.noConfusion h
  refine ⟨hc, ?_⟩
  intro hf hfc
  subst hf
  subst hfc
  rw [hc, cb_rebuild_none]
  rfl

/-- Claim C1, witness for the amended theorem, at the counterexample's
input. -/
theorem claim1_witness :
    resA.cached = !cb_rebuild edgesA 7 false (cb_file1 hashSelf edgesA 7 none) ∧
      ((none : Option (List String)) = none → false = false → resA.cached = true) :=
  claim1_amended hashSelf "me" oracleA 5 edgesA 7 false none resA rfl

/-- Claim C2, counterexample.  The cache row at position 0 stores the
fingerprint `zzz`, which differs from the fingerprint of the listed
repository `u/a`; the claim requires a full rebuild with no contribution
from the mismatched row.  The code leaves the row in place untouched, its
statistics (100 added, 40 deleted) flow into the totals, and the run even
reports `cached = true` with zero rebuilds and zero aggregator calls. -/
theorem claim2_counterexample :
    cache_builder hashSelf "me" oracleA 5 [⟨"u/a", some 50⟩] 0 false
        (some ["zzz 50 20 100 40"]) =
      CBResult.ok ⟨["zzz 50 20 100 40"], 100, 40, 60, true, 0, []⟩ := rfl

/-- Claim C2, amended.  A fingerprint mismatch at a position is silently
skipped: the loop moves on to the next index with the body, call counter
and invocation list unchanged (so the stored statistics of the mismatched
row keep contributing to the totals); no rebuild is triggered. -/
theorem claim2_amended (hash : String → String) (ownerId : String)
    (oracle : Nat → List RLResp) (retries : Nat) (cc : List String)
    (e : RepoEdge) (es : List RepoEdge) (index : Nat) (body : List String)
    (calls : Nat) (inv : List Nat) (line fp stored : String) (rest : List String)
    (hline : body.get? index = some line)
    (hps : pySplit line = fp :: stored :: rest)
    (hfp : fp ≠ hash e.nameWithOwner) :
    build_loop hash ownerId oracle retries cc (e :: es) index body calls inv =
      build_loop hash ownerId oracle retries cc es (index + 1) body calls inv := by
  have hact : row_action hash e line = RowAction.keep := by
    unfold row_action
    simp only [hps]
    rw [if_neg hfp]
  simp only [build_loop, hline, hact]

/-- Claim C2, witness for the amended theorem, at the counterexample's
input. -/
theorem claim2_witness :
    build_loop hashSelf "me" oracleA 5 [] [⟨"u/a", some 50⟩] 0
        ["zzz 50 20 100 40"] 0 [] =
      build_loop hashSelf "me" oracleA 5 [] [] 1 ["zzz 50 20 100 40"] 0 [] :=
  claim2_amended hashSelf "me" oracleA 5 [] ⟨"u/a", some 50⟩ [] 0
    ["zzz 50 20 100 40"] 0 [] "zzz 50 20 100 40" "zzz" "50" ["20", "100", "40"]
    rfl rfl (by decide)

/-- Claim C3, confirmed.  Whenever `cache_builder` propagates a fatal
failure of `recursive_loc` (retry budget exhausted, 403, or any other
non-success status), the partial save performed by `force_close_file`
persists the preamble plus the body of some successfully reconciled
prefix of the listing: there is a `k` such that the loop over the first
`k` repositories succeeds with exactly the persisted body rows. -/
theorem claim3_partial_save (hash : String → String) (ownerId : String)
    (oracle : Nat → List RLResp) (retries : Nat) (edges : List RepoEdge)
    (comment_size : Nat) (force_cache : Bool) (file : Option (List String))
    (saved : List String)
    (h : cache_builder hash ownerId oracle retries edges comment_size force_cache file =
      CBResult.fatal saved) :
    ∃ k bodyK callsK invK,
      build_loop hash ownerId oracle retries
          (cb_comment hash edges comment_size force_cache file) (edges.take k) 0
          (cb_body0 hash edges comment_size force_cache file) 0 [] =
        LoopOutcome.ok bodyK callsK invK ∧
      saved = cb_comment hash edges comment_size force_cache file ++ bodyK := by
  simp only [cache_builder] at h
  cases hbl : build_loop hash ownerId oracle retries
      (cb_comment hash edges comment_size force_cache file) edges 0
      (cb_body0 hash edges comment_size force_cache file) 0 [] with
  | ok b1 c1 i1 =>
    cases hst : sum_totals b1 0 0 with
    | none =>
      simp only [hbl, hst] at h
      exact CBResult.noConfusion h
    | some p =>
      obtain ⟨a, d⟩ := p
      simp only [hbl, hst] at h
      exact CBResult.noConfusion h
  | fatal s =>
    simp only [hbl] at h
    cases h
    exact build_loop_fatal_decomp hash ownerId oracle retries _ edges 0 _ 0 [] saved hbl
  | starved =>
    simp only [hbl] at h
    exact CBResult.noConfusion h
  | crash =>
    simp only [hbl] at h
    exact CBResult.noConfusion h

def oracleFail : Nat → List RLResp := fun k =>
  if k = 0 then [RLResp.http200 (some ⟨[⟨some "me", 100, 40⟩], false⟩)]
  else [RLResp.http403]

def edgesF : List RepoEdge := [⟨"u/a", some 50⟩, ⟨"u/b", some 9⟩]

def fileF : List String := ["u/a 1 2 3 4", "u/b 1 0 0 0"]

/-- Claim C3, witness: two stale repositories; the first reconciles
(its row becomes `u/a 50 1 100 40`), the second hits a 403.  The partial
save contains the reconciled row 0 and the untouched row 1. -/
theorem claim3_witness :
    ∃ k bodyK callsK invK,
      build_loop hashSelf "me" oracleFail 5
          (cb_comment hashSelf edgesF 0 false (some fileF)) (edgesF.take k) 0
          (cb_body0 hashSelf edgesF 0 false (some fileF)) 0 [] =
        LoopOutcome.ok bodyK callsK invK ∧
      ["u/a 50 1 100 40", "u/b 1 0 0 0"] =
        cb_comment hashSelf edgesF 0 false (some fileF) ++ bodyK :=
  claim3_partial_save hashSelf "me" oracleFail 5 edgesF 0 false (some fileF)
    ["u/a 50 1 100 40", "u/b 1 0 0 0"] rfl

/-- Claim C4, confirmed.  On a successful reconciliation pass the history
aggregator is invoked exactly at the stale positions (matching
fingerprint, existing default branch, stored count differing from the
live total), in listing order; and every fresh row (stored count equal to
the live total) is left untouched. -/
theorem claim4_staleness (hash : String → String) (ownerId : String)
    (oracle : Nat → List RLResp) (retries : Nat) (cc : List String)
    (edges : List RepoEdge) (b0 b1 : List String) (calls : Nat) (inv : List Nat)
    (h : build_loop hash ownerId oracle retries cc edges 0 b0 0 [] =
      LoopOutcome.ok b1 calls inv) :
    inv = stale_spec hash b0 edges 0 ∧
      ∀ i e, edges.get? i = some e → freshAt hash e (b0.get? i) = true →
        b1.get? i = b0.get? i := by
  constructor
  · simpa using build_loop_invoked hash ownerId oracle retries cc edges 0 b0 0 []
      b1 calls inv h
  · intro i e hi hf
    simpa using build_loop_fresh hash ownerId oracle retries cc edges 0 b0 0 []
      b1 calls inv h i e hi (by simpa using hf)

def edgesD : List RepoEdge := [⟨"u/a", some 5⟩, ⟨"u/c", some 7⟩]

def bodyD : List String := ["u/a 5 1 2 3", "u/c 3 0 0 0"]

def oracleD : Nat → List RLResp := fun _ =>
  [RLResp.http200 (some ⟨[⟨some "me", 10, 4⟩], false⟩)]

/-- Claim C4, witness: row 0 is fresh (stored 5 = live 5) and stays
untouched; row 1 is stale (stored 3, live 7) and is the only invocation. -/
theorem claim4_witness :
    [1] = stale_spec hashSelf bodyD edgesD 0 ∧
      ∀ i e, edgesD.get? i = some e → freshAt hashSelf e (bodyD.get? i) = true →
        ["u/a 5 1 2 3", "u/c 7 1 10 4"].get? i = bodyD.get? i :=
  claim4_staleness hashSelf "me" oracleD 5 [] edgesD bodyD
    ["u/a 5 1 2 3", "u/c 7 1 10 4"] 1 [1] rfl

/-- Claim C5, counterexample.  The claim requires every paginated fetch,
including the per-repository commit-history fetch, to retry rate-limited
responses.  `recursive_loc` treats the very first 403 as immediately
fatal (after the partial save), with the whole retry budget (5) unused. -/
theorem claim5_counterexample :
    recursive_loc "me" ["x"] ["c"] 5 [RLResp.http403] 0 0 0 0 =
      RLOutcome.fatal ["c", "x"] := rfl

/-- Claim C5, amended.  The listing-style fetches going through
`_request_with_retries` do retry a rate-limited (403) response with
bounded attempts, sleeping for the server-supplied `Retry-After` hint
when present (else the growing `base_delay * attempt` schedule), and turn
it fatal only when the budget is exhausted; but the commit-history fetch
(`recursive_loc`) treats any 403 as immediately fatal after the partial
save, regardless of the remaining budget. -/
theorem claim5_amended (max_retries : Nat) (base_delay : ℚ) (ra : Option String)
    (rest : List HResp) (attempt : Nat) (delays : List ℚ)
    (ownerId : String) (dl cc : List String) (retries : Nat) (resp : List RLResp)
    (a d c att : Nat) :
    (attempt + 1 < max_retries →
      request_with_retries max_retries base_delay (HResp.status 403 ra :: rest)
          attempt delays =
        request_with_retries max_retries base_delay rest (attempt + 1)
          (delays ++ [retryAfterDelay ra base_delay (attempt + 1)])) ∧
    (max_retries ≤ attempt + 1 →
      request_with_retries max_retries base_delay (HResp.status 403 ra :: rest)
          attempt delays =
        HOutcome.fatalRateLimited) ∧
    recursive_loc ownerId dl cc retries (RLResp.http403 :: resp) a d c att =
      RLOutcome.fatal (cc ++ dl) := by
  refine ⟨?_, ?_, rfl⟩
  · intro hlt
    simp only [request_with_retries]
    norm_num
    intro hcontra
    exact absurd hcontra (by omega)
  · intro hge
    simp only [request_with_retries]
    norm_num
    intro hcontra
    exact absurd hcontra (by omega)

/-- Claim C5, witness for the amended theorem: with budget 5 and a
`Retry-After: 7` hint, the first 403 is retried with a 7-second delay and
the fetch then succeeds; and on the `recursive_loc` side a 403 is fatal. -/
theorem claim5_witness :
    request_with_retries 5 (3 / 2) [HResp.status 403 (some "7"),
        HResp.status 200 none] 0 [] =
      HOutcome.success [] [7] ∧
    recursive_loc "me" ["x"] ["c"] 5 [RLResp.http403] 0 0 0 0 =
      RLOutcome.fatal (["c"] ++ ["x"]) := by
  constructor
  · rw [(claim5_amended 5 (3 / 2) (some "7") [HResp.status 200 none] 0 []
      "me" ["x"] ["c"] 5 [] 0 0 0 0).1 (by omega)]
    decide
  · exact (claim5_amended 5 (3 / 2) (some "7") [] 0 [] "me" ["x"] ["c"] 5 []
      0 0 0 0).2.2

/-- Claim C6, confirmed.  When the artifact's row count does not match the
live listing (and the artifact has at least the preamble lines), the data
handed to the reconciliation loop is the zero baseline: the body is one
zero row per listed repository and the preamble is the artifact's first
`comment_size` lines, verbatim — all before any staleness comparison,
which `cache_builder` only performs on this rebuilt body. -/
theorem claim6_rebuild (hash : String → String) (edges : List RepoEdge)
    (comment_size : Nat) (force_cache : Bool) (file : Option (List String))
    (hmis : ((cb_file1 hash edges comment_size file).length : Int) - comment_size ≠
      edges.length)
    (hcs : comment_size ≤ (cb_file1 hash edges comment_size file).length) :
    cb_body0 hash edges comment_size force_cache file =
        edges.map (fun e => zeroRow (hash e.nameWithOwner)) ∧
      cb_comment hash edges comment_size force_cache file =
        (cb_file1 hash edges comment_size file).take comment_size := by
  have hreb : cb_rebuild edges comment_size force_cache
      (cb_file1 hash edges comment_size file) = true := by
    unfold cb_rebuild
    simp [hmis]
  unfold cb_body0 cb_comment cb_data
  rw [hreb]
  simp only [if_true]
  unfold flush_cache
  have hlen : ((cb_file1 hash edges comment_size file).take comment_size).length
      = comment_size := by
    simp [List.length_take]
    omega
  constructor
  · split_ifs with h0
    · have hd := List.drop_left
        ((cb_file1 hash edges comment_size file).take comment_size)
        (edges.map fun e => zeroRow (hash e.nameWithOwner))
      rw [hlen] at hd
      exact hd
    · have h00 : comment_size = 0 := by omega
      subst h00
      simp
  · split_ifs with h0
    · have ht := List.take_left
        ((cb_file1 hash edges comment_size file).take comment_size)
        (edges.map fun e => zeroRow (hash e.nameWithOwner))
      rw [hlen] at ht
      exact ht
    · have h00 : comment_size = 0 := by omega
      subst h00
      simp


/-- Claim C6, witness: a four-line artifact with a two-line preamble and
two data rows against a one-repository listing. -/
theorem claim6_witness :
    cb_body0 hashSelf [⟨"u/a", some 3⟩] 2 false
        (some ["p1", "p2", "old 1 2 3 4", "junk"]) =
      ([⟨"u/a", some 3⟩] : List RepoEdge).map
        (fun e => zeroRow (hashSelf e.nameWithOwner)) ∧
    cb_comment hashSelf [⟨"u/a", some 3⟩] 2 false
        (some ["p1", "p2", "old 1 2 3 4", "junk"]) =
      (cb_file1 hashSelf [⟨"u/a", some 3⟩] 2
        (some ["p1", "p2", "old 1 2 3 4", "junk"])).take 2 :=
  claim6_rebuild hashSelf [⟨"u/a", some 3⟩] 2 false
    (some ["p1", "p2", "old 1 2 3 4", "junk"]) (by decide) (by decide)

/-- Claim C7, counterexample.  The cache body row `u/a 5 9` has only three
whitespace-separated fields; the claim requires the load to fail with
`CacheCorrupt`.  Instead the run succeeds: the row parses (only the first
two fields are ever read), it is left in place because its stored count
matches the live total, and the totals pass silently skips it, so it is
excluded from the totals without any error. -/
theorem claim7_counterexample :
    cache_builder hashSelf "me" oracleA 5 [⟨"u/a", some 5⟩] 0 false
        (some ["u/a 5 9"]) =
      CBResult.ok ⟨["u/a 5 9"], 0, 0, 0, true, 0, []⟩ := rfl

/-- Claim C7, amended.  A data row with fewer than two fields crashes the
run with an uncaught unpacking error (not a recoverable `CacheCorrupt`
rebuild), while a row with two to four fields is tolerated: the
reconciliation loop reads only its first two fields, and the totals pass
skips any row with fewer than five fields, silently excluding it. -/
theorem claim7_amended (hash : String → String) (ownerId : String)
    (oracle : Nat → List RLResp) (retries : Nat) (cc : List String)
    (e : RepoEdge) (es : List RepoEdge) (index : Nat) (body : List String)
    (calls : Nat) (inv : List Nat) (line : String) (a d : Int) (rest : List String) :
    (body.get? index = some line → (pySplit line).length < 2 →
      build_loop hash ownerId oracle retries cc (e :: es) index body calls inv =
        LoopOutcome.crash) ∧
    ((pySplit line).length < 5 →
      sum_totals (line :: rest) a d = sum_totals rest a d) := by
  constructor
  · intro hline hlen
    have hact : row_action hash e line = RowAction.crash := by
      rcases hps : pySplit line with _ | ⟨x, t1⟩
      · simp [row_action, hps]
      · rcases t1 with _ | ⟨y, t2⟩
        · simp [row_action, hps]
        · rw [hps] at hlen
          simp only [List.length_cons] at hlen
          omega
    simp only [build_loop, hline, hact]
  · intro hlen
    rcases hps : pySplit line with _ | ⟨p0, _ | ⟨p1, _ | ⟨p2, _ | ⟨p3, _ | ⟨p4, t⟩⟩⟩⟩⟩
    · simp [sum_totals, hps]
    · simp [sum_totals, hps]
    · simp [sum_totals, hps]
    · simp [sum_totals, hps]
    · simp [sum_totals, hps]
    · rw [hps] at hlen
      simp only [List.length_cons] at hlen
      omega

/-- Claim C7, witness for the amended theorem: a one-field row `x`
crashes the loop, and a short row is skipped by the totals pass. -/
theorem claim7_witness :
    build_loop hashSelf "me" oracleA 5 [] [⟨"u/a", some 5⟩] 0 ["x"] 0 [] =
        LoopOutcome.crash ∧
      sum_totals ["x"] 0 0 = sum_totals [] 0 0 := by
  have h := claim7_amended hashSelf "me" oracleA 5 [] ⟨"u/a", some 5⟩ [] 0
    ["x"] 0 [] "x" 0 0 []
  exact ⟨h.1 rfl (by decide), h.2 (by decide)⟩

/-- Claim C9, confirmed.  The archive merge adds `add_archive`'s five
components (lines added, lines deleted, net, commits, contributed
repositories) component-wise to the running totals, and an absent archive
contributes exactly zero to every component without error. -/
theorem claim9_archive_merge (locAdd locDel net commits contribs : Int)
    (owner_id : String) (archive : Option (List String))
    (a d n c : Int) (r : Nat)
    (hsum : add_archive archive = some (a, d, n, c, r)) :
    add_archive none = some (0, 0, 0, 0, 0) ∧
      archive_merge owner_id locAdd locDel net commits contribs none =
        some ⟨locAdd, locDel, net, commits, contribs⟩ ∧
      archive_merge archiveOwnerId locAdd locDel net commits contribs archive =
        some ⟨locAdd + a, locDel + d, net + n, commits + c, contribs + (r : Int)⟩ := by
  refine ⟨rfl, ?_, ?_⟩
  · unfold archive_merge
    split_ifs with h
    · have hz : add_archive none = some (0, 0, 0, 0, 0) := rfl
      rw [hz]
      simp
    · rfl
  · unfold archive_merge
    rw [if_pos rfl, hsum]

/-- Claim C9, witness: an archive of seven header lines, one data row
`x 10 30 500 200`, and three footer lines (the last without a fifth
token), merged into live totals `(1, 2, 3, 4, 5)`. -/
theorem claim9_witness :
    add_archive none = some (0, 0, 0, 0, 0) ∧
      archive_merge "someone" 1 2 3 4 5 none = some ⟨1, 2, 3, 4, 5⟩ ∧
      archive_merge archiveOwnerId 1 2 3 4 5
          (some (List.replicate 7 "h" ++ ["x 10 30 500 200"] ++ ["f", "f", "end"])) =
        some ⟨1 + 500, 2 + 200, 3 + 300, 4 + 30, 5 + ((1 : Nat) : Int)⟩ :=
  claim9_archive_merge 1 2 3 4 5 "someone"
    (some (List.replicate 7 "h" ++ ["x 10 30 500 200"] ++ ["f", "f", "end"]))
    500 200 300 30 1 rfl

/-- Claim C10, confirmed.  The archive merge runs only for the hard-coded
account identifier: for every other `OWNER_ID`, the totals, commit count
and contributed-repositories count are returned unchanged even when the
archive file exists. -/
theorem claim10_owner_guard (owner_id : String) (h : owner_id ≠ archiveOwnerId)
    (locAdd locDel net commits contribs : Int) (archive : Option (List String)) :
    archive_merge owner_id locAdd locDel net commits contribs archive =
      some ⟨locAdd, locDel, net, commits, contribs⟩ := by
  unfold archive_merge
  rw [if_neg h]

/-- Claim C10, witness: a different account id with a present archive. -/
theorem claim10_witness :
    archive_merge "MDQ6VXNlcjk5OTk5OTk5" 1 2 3 4 5
        (some (List.replicate 7 "h" ++ ["x 10 30 500 200"] ++ ["f", "f", "end"])) =
      some ⟨1, 2, 3, 4, 5⟩ :=
  claim10_owner_guard "MDQ6VXNlcjk5OTk5OTk5" (by decide) 1 2 3 4 5
    (some (List.replicate 7 "h" ++ ["x 10 30 500 200"] ++ ["f", "f", "end"]))

/-- Claim C8, counterexample.  With an empty listing and a one-line
preamble configuration, an externally truncated (empty) artifact makes
every run flush and report `cached = false`, while persisting the same
empty artifact: the first run returns the byte-identical artifact `[]`,
so the displayed run *is* the second run of the claim, and its
`wasFullyCached` is `false`, not `true` (totals and the artifact are
nevertheless unchanged and no aggregator runs). -/
theorem claim8_counterexample :
    cache_builder hashSelf "me" oracleA 5 [] 1 false (some []) =
        CBResult.ok ⟨[], 0, 0, 0, false, 0, []⟩ ∧
      cache_builder hashSelf "me" oracleA 5 [] 1 false (some ([] : List String)) ≠
        CBResult.ok ⟨[], 0, 0, 0, true, 0, []⟩ :=
  ⟨rfl, by decide⟩

/-- Claim C8, amended.  Re-running reconciliation on the artifact
persisted by a successful run, with the same listing and hash, yields
identical totals, a byte-identical artifact, `wasFullyCached = true` and
zero aggregator invocations — for any oracle and retry budget, provided
the persisted artifact's shape matches the listing (row count equal to
artifact lines minus `comment_size`), which holds except in the
degenerate case of an input artifact shorter than the preamble. -/
theorem claim8_amended (hash : String → String) (hOk : HashOk hash) (ownerId : String)
    (oracle oracle2 : Nat → List RLResp) (retries retries2 : Nat)
    (edges : List RepoEdge) (comment_size : Nat) (file : Option (List String))
    (r : CBSuccess)
    (h1 : cache_builder hash ownerId oracle retries edges comment_size false file =
      CBResult.ok r)
    (hshape : (r.file.length : Int) - comment_size = edges.length) :
    cache_builder hash ownerId oracle2 retries2 edges comment_size false (some r.file) =
      CBResult.ok ⟨r.file, r.locAdd, r.locDel, r.net, true, 0, []⟩ := by
  simp only [cache_builder] at h1
  cases hbl : build_loop hash ownerId oracle retries
      (cb_comment hash edges comment_size false file) edges 0
      (cb_body0 hash edges comment_size false file) 0 [] with
  | fatal s => simp only [hbl] at h1; exact CBResult.noConfusion h1
  | starved => simp only [hbl] at h1; exact CBResult.noConfusion h1
  | crash => simp only [hbl] at h1; exact CBResult.noConfusion h1
  | ok b1 c1 i1 =>
    cases hst : sum_totals b1 0 0 with
    | none => simp only [hbl, hst] at h1; exact CBResult.noConfusion h1
    | some p =>
      obtain ⟨a, d⟩ := p
      simp only [hbl, hst] at h1
      cases h1
      simp only [] at hshape ⊢
      have hlenb : b1.length = (cb_body0 hash edges comment_size false file).length :=
        build_loop_length hash ownerId oracle retries _ edges 0 _ 0 [] b1 c1 i1 hbl
      have hCmin : (cb_comment hash edges comment_size false file).length =
          min comment_size (cb_data hash edges comment_size false
            (cb_file1 hash edges comment_size file)).length := by
        unfold cb_comment
        simp [List.length_take]
      have hC : (cb_comment hash edges comment_size false file).length = comment_size := by
        by_cases hlt : (cb_data hash edges comment_size false
            (cb_file1 hash edges comment_size file)).length < comment_size
        · exfalso
          have hB0 : cb_body0 hash edges comment_size false file = [] := by
            unfold cb_body0
            exact List.drop_eq_nil_of_le (by omega)
          cases edges with
          | nil =>
            rw [hB0] at hlenb
            simp only [List.length_nil] at hlenb
            simp only [List.length_append, List.length_nil] at hshape
            omega
          | cons e es =>
            rw [hB0] at hbl
            simp [build_loop] at hbl
        · omega
      have hreb2 : cb_rebuild edges comment_size false
          (cb_file1 hash edges comment_size
            (some (cb_comment hash edges comment_size false file ++ b1))) = false := by
        show cb_rebuild edges comment_size false
          (cb_comment hash edges comment_size false file ++ b1) = false
        unfold cb_rebuild
        simp only [Bool.or_false, decide_eq_false_iff_not, ne_eq, not_not]
        simpa using hshape
      have hdata2 : cb_data hash edges comment_size false
          (cb_file1 hash edges comment_size
            (some (cb_comment hash edges comment_size false file ++ b1))) =
          cb_comment hash edges comment_size false file ++ b1 := by
        unfold cb_data
        rw [hreb2]
        simp [cb_file1]
      have hcomm2 : cb_comment hash edges comment_size false
          (some (cb_comment hash edges comment_size false file ++ b1)) =
          cb_comment hash edges comment_size false file := by
        rw [show cb_comment hash edges comment_size false
            (some (cb_comment hash edges comment_size false file ++ b1)) =
            (cb_data hash edges comment_size false
              (cb_file1 hash edges comment_size
                (some (cb_comment hash edges comment_size false file ++ b1)))).take
              comment_size from rfl]
        rw [hdata2]
        have ht := List.take_left (cb_comment hash edges comment_size false file) b1
        rw [hC] at ht
        exact ht
      have hbody2 : cb_body0 hash edges comment_size false
          (some (cb_comment hash edges comment_size false file ++ b1)) = b1 := by
        rw [show cb_body0 hash edges comment_size false
            (some (cb_comment hash edges comment_size false file ++ b1)) =
            (cb_data hash edges comment_size false
              (cb_file1 hash edges comment_size
                (some (cb_comment hash edges comment_size false file ++ b1)))).drop
              comment_size from rfl]
        rw [hdata2]
        have hd := List.drop_left (cb_comment hash edges comment_size false file) b1
        rw [hC] at hd
        exact hd
      have hloop2 : build_loop hash ownerId oracle2 retries2
          (cb_comment hash edges comment_size false file) edges 0 b1 0 [] =
          LoopOutcome.ok b1 0 [] :=
        build_loop_idem hash hOk ownerId ownerId oracle oracle2 retries retries2
          (cb_comment hash edges comment_size false file)
          (cb_comment hash edges comment_size false file) edges 0
          (cb_body0 hash edges comment_size false file) 0 [] b1 c1 i1 hbl
      simp only [cache_builder, hcomm2, hbody2, hloop2, hst, hreb2]
      rfl

def wHash : String → String := fun _ => "w"

def oracleW : Nat → List RLResp := fun _ =>
  [RLResp.http200 (some ⟨[⟨some "me", 100, 40⟩], false⟩)]

def edgesW : List RepoEdge := [⟨"u/a", some 50⟩]

theorem wHash_ok : HashOk wHash := by
  intro s
  show strOk "w"
  exact ⟨by decide, by decide⟩

/-- Claim C8, witness for the amended theorem: a first run from an absent
cache reconciles the single repository; the second run over the persisted
artifact (with a different oracle and retry budget, which are never
consulted) returns the identical artifact and totals, `cached = true`,
and zero invocations. -/
theorem claim8_witness :
    cache_builder wHash "me" (fun _ => []) 7 edgesW 0 false
        (some ["w 50 1 100 40"]) =
      CBResult.ok ⟨["w 50 1 100 40"], 100, 40, 60, true, 0, []⟩ :=
  claim8_amended wHash wHash_ok "me" oracleW (fun _ => []) 5 7 edgesW 0 none
    ⟨["w 50 1 100 40"], 100, 40, 60, true, 1, [0]⟩ rfl (by decide)
end Today
